import Mathlib

/-!
Shallow embedding of the focal-loss notebook
(`examples/Lightgbm_with_Focal_Loss_multiclass.ipynb`): the `sigmoid`
helper, the inner focal-loss kernel `fl` of `focal_loss_lgb`, the custom
objective `focal_loss_lgb` (one-hot labels, row-major reshape of the flat
prediction vector, centered finite differences, column-major flatten) and
the evaluation metric `focal_loss_lgb_eval_error`.  Machine floating point
is modelled by the real numbers; `np.exp`, `np.log` and the float power
`**` become `Real.exp`, `Real.log` and `Real.rpow`.
-/

namespace FocalLoss

noncomputable section

/-- Notebook cell `def sigmoid(x): return 1./(1. + np.exp(-x))`. -/
def sigmoid (x : ℝ) : ℝ := 1 / (1 + Real.exp (-x))

/-- The inner function `fl(x, t)` of `focal_loss_lgb`, closing over
`a = alpha` and `g = gamma`:
`p = 1/(1+np.exp(-x))` and the returned value is
`-(a*t + (1-a)*(1-t)) * ((1 - (t*p + (1-t)*(1-p)))**g) * (t*np.log(p) + (1-t)*np.log(1-p))`. -/
def fl (a g x t : ℝ) : ℝ :=
  let p := 1 / (1 + Real.exp (-x));
  -(a * t + (1 - a) * (1 - t)) * ((1 - (t * p + (1 - t) * (1 - p))) ^ g) *
    (t * Real.log p + (1 - t) * Real.log (1 - p))

/-- Model of the library call `scipy.misc.derivative(f, x0, n=1, dx)` with
the default `order=3` stencil: the centered difference
`(f(x0+dx) - f(x0-dx)) / (2*dx)`. -/
def derivative1 (f : ℝ → ℝ) (x0 dx : ℝ) : ℝ := (f (x0 + dx) - f (x0 - dx)) / (2 * dx)

/-- Model of the library call `scipy.misc.derivative(f, x0, n=2, dx)` with
the default `order=3` stencil: `(f(x0+dx) - 2*f(x0) + f(x0-dx)) / dx^2`. -/
def derivative2 (f : ℝ → ℝ) (x0 dx : ℝ) : ℝ :=
  (f (x0 + dx) - 2 * f x0 + f (x0 - dx)) / dx ^ (2 : ℕ)

/-- Row `lbl` of `np.eye(C)` (with `lbl < C` the valid-index condition):
entry `j` is `1` exactly when `j = lbl`, else `0`.  This is how both
`focal_loss_lgb` and `focal_loss_lgb_eval_error` one-hot encode
`y_true.astype('int')` via `np.eye(num_class)[y_true]`. -/
def oneHot (lbl j : ℕ) : ℝ := if j = lbl then 1 else 0

/-- Entry `(i, j)` of `y_pred.reshape(-1, num_class)` for the flat
prediction vector `preds`: the reshape is row-major, so cell `(i, j)`
reads flat input index `i*C + j`. -/
def cellScore (C : ℕ) (preds : ℕ → ℝ) (i j : ℕ) : ℝ := preds (i * C + j)

/-- Cell `(i, j)` of `grad = derivative(partial_fl, y_pred, n=1, dx=1e-6)`
in `focal_loss_lgb`, where `partial_fl = lambda x: fl(x, y_true)`. -/
def gradCell (a g : ℝ) (C : ℕ) (preds : ℕ → ℝ) (labels : ℕ → ℕ) (i j : ℕ) : ℝ :=
  derivative1 (fun x => fl a g x (oneHot (labels i) j)) (cellScore C preds i j) 1e-6

/-- Cell `(i, j)` of `hess = derivative(partial_fl, y_pred, n=2, dx=1e-6)`
in `focal_loss_lgb`. -/
def hessCell (a g : ℝ) (C : ℕ) (preds : ℕ → ℝ) (labels : ℕ → ℕ) (i j : ℕ) : ℝ :=
  derivative2 (fun x => fl a g x (oneHot (labels i) j)) (cellScore C preds i j) 1e-6

/-- The custom objective `focal_loss_lgb(y_pred, dtrain, alpha, gamma,
num_class)` on `N` observations and `C = num_class` classes: it one-hot
encodes the labels, reshapes the flat predictions to `N × C` (row-major),
differentiates `fl` numerically cell by cell, and returns
`grad.flatten('F'), hess.flatten('F')` — column-major flattening, so flat
output index `k` holds the cell `(k % N, k / N)`. -/
def focal_loss_lgb (N C : ℕ) (preds : ℕ → ℝ) (labels : ℕ → ℕ) (a g : ℝ) :
    List ℝ × List ℝ :=
  ((List.range (N * C)).map fun k => gradCell a g C preds labels (k % N) (k / N),
    (List.range (N * C)).map fun k => hessCell a g C preds labels (k % N) (k / N))

/-- The elementwise loss computed inline by `focal_loss_lgb_eval_error`
through its variables `p = 1/(1+np.exp(-y_pred))` and `loss = ...`,
written per cell. -/
def inlineLoss (a g x t : ℝ) : ℝ :=
  let p := 1 / (1 + Real.exp (-x));
  -(a * t + (1 - a) * (1 - t)) * ((1 - (t * p + (1 - t) * (1 - p))) ^ g) *
    (t * Real.log p + (1 - t) * Real.log (1 - p))

/-- The custom metric `focal_loss_lgb_eval_error(y_pred, dtrain, alpha,
gamma, num_class)`: it one-hot encodes the labels, reshapes the flat
predictions to `N × C` (row-major), computes the elementwise loss and
returns `('focal_loss', np.mean(loss), False)`; the mean of the `N × C`
loss array is its sum divided by `N * C`. -/
def focal_loss_lgb_eval_error (N C : ℕ) (preds : ℕ → ℝ) (labels : ℕ → ℕ) (a g : ℝ) :
    String × ℝ × Bool :=
  ("focal_loss",
    (∑ i ∈ Finset.range N, ∑ j ∈ Finset.range C,
      inlineLoss a g (cellScore C preds i j) (oneHot (labels i) j)) / ((N : ℝ) * (C : ℝ)),
    false)

/-- Unfolding of `fl` with the probability written through `sigmoid`. -/
lemma fl_def (a g x t : ℝ) :
    fl a g x t =
      -(a * t + (1 - a) * (1 - t)) *
        ((1 - (t * sigmoid x + (1 - t) * (1 - sigmoid x))) ^ g) *
        (t * Real.log (sigmoid x) + (1 - t) * Real.log (1 - sigmoid x)) := rfl

lemma sigmoid_pos (x : ℝ) : 0 < sigmoid x := by
  unfold sigmoid
  positivity

lemma sigmoid_lt_one (x : ℝ) : sigmoid x < 1 := by
  unfold sigmoid
  rw [div_lt_one (by positivity)]
  linarith [Real.exp_pos (-x)]

lemma sigmoid_strictMono : StrictMono sigmoid := by
  intro x y hxy
  unfold sigmoid
  apply one_div_lt_one_div_of_lt (by positivity)
  have h := Real.exp_lt_exp.mpr (neg_lt_neg hxy)
  linarith

lemma sigmoid_neg_symm (x : ℝ) : sigmoid (-x) = 1 - sigmoid x := by
  unfold sigmoid
  rw [neg_neg, Real.exp_neg]
  have h1 : Real.exp x ≠ 0 := Real.exp_ne_zero x
  have h2 : 1 + Real.exp x ≠ 0 := by positivity
  have h3 : 1 + (Real.exp x)⁻¹ ≠ 0 := by positivity
  field_simp
  ring

lemma colMajor_lt {N C i c : ℕ} (hi : i < N) (hc : c < C) : c * N + i < N * C :=
  calc c * N + i < c * N + N := by omega
    _ = (c + 1) * N := by ring
    _ ≤ C * N := Nat.mul_le_mul_right N hc
    _ = N * C := Nat.mul_comm C N

lemma colMajor_mod {N : ℕ} (i c : ℕ) (hi : i < N) : (c * N + i) % N = i := by
  rw [Nat.mul_comm c N, Nat.mul_add_mod]
  exact Nat.mod_eq_of_lt hi

lemma colMajor_div {N : ℕ} (i c : ℕ) (hi : i < N) : (c * N + i) / N = c := by
  rw [Nat.mul_comm c N, Nat.mul_add_div (by omega), Nat.div_eq_of_lt hi]
  omega

lemma focal_grad_elem (N C : ℕ) (preds : ℕ → ℝ) (labels : ℕ → ℕ) (a g : ℝ)
    {i c : ℕ} (hi : i < N) (hc : c < C) :
    (focal_loss_lgb N C preds labels a g).1[c * N + i]? =
      some (gradCell a g C preds labels i c) := by
  unfold focal_loss_lgb
  simp only [List.getElem?_map, List.getElem?_range (colMajor_lt hi hc)]
  simp [colMajor_mod i c hi, colMajor_div i c hi]

lemma focal_hess_elem (N C : ℕ) (preds : ℕ → ℝ) (labels : ℕ → ℕ) (a g : ℝ)
    {i c : ℕ} (hi : i < N) (hc : c < C) :
    (focal_loss_lgb N C preds labels a g).2[c * N + i]? =
      some (hessCell a g C preds labels i c) := by
  unfold focal_loss_lgb
  simp only [List.getElem?_map, List.getElem?_range (colMajor_lt hi hc)]
  simp [colMajor_mod i c hi, colMajor_div i c hi]

/-- C1: the per-element loss computed by the inner function `fl` of
`focal_loss_lgb` equals
`-(alpha*t + (1-alpha)*(1-t)) * (1 - (t*p + (1-t)*(1-p)))^gamma * (t*log(p) + (1-t)*log(1-p))`
with `p = sigmoid(x) = 1/(1+exp(-x))`, for every raw score `x` and label
component `t`, applied independently per cell. -/
theorem C1_fl_formula (a g x t : ℝ) :
    fl a g x t =
      -((a * t + (1 - a) * (1 - t)) *
        ((1 - (t * sigmoid x + (1 - t) * (1 - sigmoid x))) ^ g) *
        (t * Real.log (sigmoid x) + (1 - t) * Real.log (1 - sigmoid x))) := by
  rw [fl_def]
  ring

/-- C5: the elementwise loss computed inline by
`focal_loss_lgb_eval_error` coincides with the inner function `fl` of
`focal_loss_lgb` at the same raw score, label component and
hyperparameters — the two components evaluate the same loss kernel. -/
theorem C5_same_kernel (a g x t : ℝ) : inlineLoss a g x t = fl a g x t := rfl

/-- C8: the sigmoid used by the loss kernel takes values strictly inside
`(0, 1)`, is strictly monotonically increasing, and satisfies
`sigmoid(-x) = 1 - sigmoid(x)`. -/
theorem C8_sigmoid_props :
    (∀ x : ℝ, 0 < sigmoid x ∧ sigmoid x < 1) ∧ StrictMono sigmoid ∧
      (∀ x : ℝ, sigmoid (-x) = 1 - sigmoid x) :=
  ⟨fun x => ⟨sigmoid_pos x, sigmoid_lt_one x⟩, sigmoid_strictMono, sigmoid_neg_symm⟩

/-- C2: on an `N × C` input, `focal_loss_lgb` returns gradient and Hessian
arrays of exactly `N * C` elements each, flattened in column-major
(class-major) order: output index `c*N + i` holds the value for
observation `i` and class `c`, with no reordering inside that convention. -/
theorem C2_output_layout (N C : ℕ) (preds : ℕ → ℝ) (labels : ℕ → ℕ) (a g : ℝ)
    (i c : ℕ) (hi : i < N) (hc : c < C) :
    (focal_loss_lgb N C preds labels a g).1.length = N * C ∧
    (focal_loss_lgb N C preds labels a g).2.length = N * C ∧
    (focal_loss_lgb N C preds labels a g).1[c * N + i]? =
      some (gradCell a g C preds labels i c) ∧
    (focal_loss_lgb N C preds labels a g).2[c * N + i]? =
      some (hessCell a g C preds labels i c) := by
  refine ⟨?_, ?_, focal_grad_elem N C preds labels a g hi hc,
    focal_hess_elem N C preds labels a g hi hc⟩ <;>
    simp [focal_loss_lgb]

theorem C2_output_layout_witness :
    (focal_loss_lgb 1 1 (fun _ => 0) (fun _ => 0) 0 0).1.length = 1 * 1 ∧
    (focal_loss_lgb 1 1 (fun _ => 0) (fun _ => 0) 0 0).2.length = 1 * 1 ∧
    (focal_loss_lgb 1 1 (fun _ => 0) (fun _ => 0) 0 0).1[0 * 1 + 0]? =
      some (gradCell 0 0 1 (fun _ => 0) (fun _ => 0) 0 0) ∧
    (focal_loss_lgb 1 1 (fun _ => 0) (fun _ => 0) 0 0).2[0 * 1 + 0]? =
      some (hessCell 0 0 1 (fun _ => 0) (fun _ => 0) 0 0) :=
  C2_output_layout 1 1 (fun _ => 0) (fun _ => 0) 0 0 0 0 Nat.one_pos Nat.one_pos

/-- C3: each returned gradient entry is the centered finite difference
`(f(x+dx) - f(x-dx)) / (2*dx)` and each Hessian entry the centered second
difference `(f(x+dx) - 2*f(x) + f(x-dx)) / dx^2` of the per-element loss
`fl`, with `dx = 1e-6`, at that element's raw score. -/
theorem C3_finite_difference (N C : ℕ) (preds : ℕ → ℝ) (labels : ℕ → ℕ) (a g : ℝ)
    (i c : ℕ) (hi : i < N) (hc : c < C) :
    (focal_loss_lgb N C preds labels a g).1[c * N + i]? =
      some ((fl a g (preds (i * C + c) + 1e-6) (oneHot (labels i) c) -
             fl a g (preds (i * C + c) - 1e-6) (oneHot (labels i) c)) / (2 * 1e-6)) ∧
    (focal_loss_lgb N C preds labels a g).2[c * N + i]? =
      some ((fl a g (preds (i * C + c) + 1e-6) (oneHot (labels i) c) -
             2 * fl a g (preds (i * C + c)) (oneHot (labels i) c) +
             fl a g (preds (i * C + c) - 1e-6) (oneHot (labels i) c)) /
            (1e-6 : ℝ) ^ (2 : ℕ)) := by
  exact ⟨focal_grad_elem N C preds labels a g hi hc,
    focal_hess_elem N C preds labels a g hi hc⟩

theorem C3_finite_difference_witness :
    (focal_loss_lgb 1 1 (fun _ => 0) (fun _ => 0) 0 0).1[0 * 1 + 0]? =
      some ((fl 0 0 ((0:ℝ) + 1e-6) (oneHot 0 0) - fl 0 0 ((0:ℝ) - 1e-6) (oneHot 0 0)) /
            (2 * 1e-6)) ∧
    (focal_loss_lgb 1 1 (fun _ => 0) (fun _ => 0) 0 0).2[0 * 1 + 0]? =
      some ((fl 0 0 ((0:ℝ) + 1e-6) (oneHot 0 0) - 2 * fl 0 0 0 (oneHot 0 0) +
             fl 0 0 ((0:ℝ) - 1e-6) (oneHot 0 0)) / (1e-6 : ℝ) ^ (2 : ℕ)) :=
  C3_finite_difference 1 1 (fun _ => 0) (fun _ => 0) 0 0 0 0 Nat.one_pos Nat.one_pos

/-- C4: `focal_loss_lgb_eval_error` returns exactly the triple of the
metric name `'focal_loss'`, the arithmetic mean of the per-element focal
loss `fl` over the full `N × C` one-hot-expanded array, and the
higher-is-better flag `false`, on every invocation. -/
theorem C4_eval_metric (N C : ℕ) (preds : ℕ → ℝ) (labels : ℕ → ℕ) (a g : ℝ) :
    focal_loss_lgb_eval_error N C preds labels a g =
      ("focal_loss",
        (∑ i ∈ Finset.range N, ∑ j ∈ Finset.range C,
          fl a g (preds (i * C + j)) (oneHot (labels i) j)) / ((N : ℝ) * (C : ℝ)),
        false) := rfl

/-- C6: with `gamma = 0` and `alpha = 1/2` the per-element loss is half the
binary cross-entropy with logits, and at `x = 0`, `t = 1` it equals
`(1/2) * log 2`. -/
theorem C6_bce_reduction (x t : ℝ) :
    fl (1/2) 0 x t =
      (1/2) * (-(t * Real.log (sigmoid x) + (1 - t) * Real.log (1 - sigmoid x))) ∧
    fl (1/2) 0 0 1 = (1/2) * Real.log 2 := by
  have key : ∀ z u : ℝ, fl (1/2) 0 z u =
      (1/2) * (-(u * Real.log (sigmoid z) + (1 - u) * Real.log (1 - sigmoid z))) := by
    intro z u
    rw [fl_def, Real.rpow_zero]
    ring
  refine ⟨key x t, ?_⟩
  rw [key 0 1]
  have hs : sigmoid 0 = 1/2 := by
    unfold sigmoid
    rw [neg_zero, Real.exp_zero]
    norm_num
  rw [hs]
  rw [show (1:ℝ) - 1/2 = 1/2 by norm_num]
  rw [show Real.log (1/2 : ℝ) = -Real.log 2 by rw [one_div, Real.log_inv]]
  ring

lemma fl_at_one (a g x : ℝ) :
    fl a g x 1 = a * (1 - sigmoid x) ^ g * (-Real.log (sigmoid x)) := by
  rw [fl_def]
  rw [show (1:ℝ) - (1 * sigmoid x + (1 - 1) * (1 - sigmoid x)) = 1 - sigmoid x by ring]
  ring

lemma fl_at_zero (a g x : ℝ) :
    fl a g x 0 = (1 - a) * (sigmoid x) ^ g * (-Real.log (1 - sigmoid x)) := by
  rw [fl_def]
  rw [show (1:ℝ) - (0 * sigmoid x + (1 - 0) * (1 - sigmoid x)) = sigmoid x by ring]
  ring

/-- C7: with `alpha ∈ [0,1]` and `gamma ≥ 0` fixed, the per-element loss
is monotone in the raw score: for `t = 1` it is monotonically decreasing
in `x`, and for `t = 0` monotonically increasing. -/
theorem C7_monotone (a g : ℝ) (ha0 : 0 ≤ a) (ha1 : a ≤ 1) (hg : 0 ≤ g) :
    (∀ x y : ℝ, x ≤ y → fl a g y 1 ≤ fl a g x 1) ∧
    (∀ x y : ℝ, x ≤ y → fl a g x 0 ≤ fl a g y 0) := by
  constructor
  · intro x y hxy
    rw [fl_at_one, fl_at_one]
    have hsx := sigmoid_pos x
    have hsy := sigmoid_pos y
    have hsx1 := sigmoid_lt_one x
    have hsy1 := sigmoid_lt_one y
    have hmono : sigmoid x ≤ sigmoid y := sigmoid_strictMono.le_iff_le.mpr hxy
    have hM : (1 - sigmoid y) ^ g ≤ (1 - sigmoid x) ^ g :=
      Real.rpow_le_rpow (by linarith) (by linarith) hg
    have hL : -Real.log (sigmoid y) ≤ -Real.log (sigmoid x) := by
      have := Real.log_le_log hsx hmono
      linarith
    have hLy : 0 ≤ -Real.log (sigmoid y) := by
      have := Real.log_nonpos (le_of_lt hsy) (le_of_lt hsy1)
      linarith
    have hMx : 0 ≤ (1 - sigmoid x) ^ g := Real.rpow_nonneg (by linarith) g
    calc a * (1 - sigmoid y) ^ g * (-Real.log (sigmoid y))
        ≤ a * ((1 - sigmoid x) ^ g * (-Real.log (sigmoid x))) := by
          rw [mul_assoc]
          exact mul_le_mul_of_nonneg_left (mul_le_mul hM hL hLy hMx) ha0
      _ = a * (1 - sigmoid x) ^ g * (-Real.log (sigmoid x)) := by rw [mul_assoc]
  · intro x y hxy
    rw [fl_at_zero, fl_at_zero]
    have hsx := sigmoid_pos x
    have hsy := sigmoid_pos y
    have hsx1 := sigmoid_lt_one x
    have hsy1 := sigmoid_lt_one y
    have hmono : sigmoid x ≤ sigmoid y := sigmoid_strictMono.le_iff_le.mpr hxy
    have hM : (sigmoid x) ^ g ≤ (sigmoid y) ^ g :=
      Real.rpow_le_rpow (le_of_lt hsx) hmono hg
    have hL : -Real.log (1 - sigmoid x) ≤ -Real.log (1 - sigmoid y) := by
      have := Real.log_le_log (show (0:ℝ) < 1 - sigmoid y by linarith)
        (show (1:ℝ) - sigmoid y ≤ 1 - sigmoid x by linarith)
      linarith
    have hLx : 0 ≤ -Real.log (1 - sigmoid x) := by
      have := Real.log_nonpos (show (0:ℝ) ≤ 1 - sigmoid x by linarith)
        (show (1:ℝ) - sigmoid x ≤ 1 by linarith)
      linarith
    have hMy : 0 ≤ (sigmoid y) ^ g := Real.rpow_nonneg (le_of_lt hsy) g
    calc (1 - a) * (sigmoid x) ^ g * (-Real.log (1 - sigmoid x))
        ≤ (1 - a) * ((sigmoid y) ^ g * (-Real.log (1 - sigmoid y))) := by
          rw [mul_assoc]
          exact mul_le_mul_of_nonneg_left (mul_le_mul hM hL hLx hMy) (by linarith)
      _ = (1 - a) * (sigmoid y) ^ g * (-Real.log (1 - sigmoid y)) := by rw [mul_assoc]

theorem C7_monotone_witness :
    fl (1/4) 2 1 1 ≤ fl (1/4) 2 0 1 ∧ fl (1/4) 2 0 0 ≤ fl (1/4) 2 1 0 :=
  ⟨(C7_monotone (1/4) 2 (by norm_num) (by norm_num) (by norm_num)).1 0 1 (by norm_num),
    (C7_monotone (1/4) 2 (by norm_num) (by norm_num) (by norm_num)).2 0 1 (by norm_num)⟩

/-- C9: for a valid class index `lbl < C`, the one-hot row used by both
`focal_loss_lgb` and `focal_loss_lgb_eval_error` has its entry at the true
class index equal to `1`, every other entry equal to `0`, and it sums to
exactly `1` over the `C` classes. -/
theorem C9_one_hot_row (C lbl : ℕ) (h : lbl < C) :
    (∑ j ∈ Finset.range C, oneHot lbl j) = 1 ∧ oneHot lbl lbl = 1 ∧
      ∀ j, j ≠ lbl → oneHot lbl j = 0 := by
  refine ⟨?_, by simp [oneHot], fun j hj => by simp [oneHot, hj]⟩
  unfold oneHot
  rw [Finset.sum_ite_eq' (Finset.range C) lbl (fun _ => (1:ℝ))]
  simp [Finset.mem_range.mpr h]

theorem C9_one_hot_row_witness :
    (∑ j ∈ Finset.range 3, oneHot 1 j) = 1 ∧ oneHot 1 1 = 1 ∧
      ∀ j, j ≠ 1 → oneHot 1 j = 0 :=
  C9_one_hot_row 3 1 (by omega)

/-- C10: `focal_loss_lgb` reads flat input element `k` as the score of
observation `k / C`, class `k % C` (row-major reshape), while output
element `k` carries the cell of observation `k % N`, class `k / N`
(column-major flatten); for `N > 1` and `C > 1` some output position `k`
refers to a cell whose input score sits at a different flat index, so the
two flat orderings differ. -/
theorem C10_layout_mismatch (N C : ℕ) (preds : ℕ → ℝ) (labels : ℕ → ℕ) (a g : ℝ)
    (hN : 1 < N) (hC : 1 < C) :
    (∀ k, k < N * C → cellScore C preds (k / C) (k % C) = preds k) ∧
    (∀ k, k < N * C → (focal_loss_lgb N C preds labels a g).1[k]? =
      some (gradCell a g C preds labels (k % N) (k / N))) ∧
    (∃ k, k < N * C ∧ (k % N) * C + k / N ≠ k) := by
  refine ⟨?_, ?_, ?_⟩
  · intro k _
    unfold cellScore
    rw [Nat.div_add_mod']
  · intro k hk
    unfold focal_loss_lgb
    simp [List.getElem?_range hk]
  · refine ⟨1, ?_, ?_⟩
    · calc 1 < N := hN
        _ = N * 1 := (Nat.mul_one N).symm
        _ ≤ N * C := Nat.mul_le_mul_left N (Nat.le_of_lt hC)
    · rw [Nat.mod_eq_of_lt hN, Nat.div_eq_of_lt hN]
      omega

theorem C10_layout_mismatch_witness :
    (∀ k, k < 2 * 2 → cellScore 2 (fun _ => (0:ℝ)) (k / 2) (k % 2) = 0) ∧
    (∀ k, k < 2 * 2 → (focal_loss_lgb 2 2 (fun _ => (0:ℝ)) (fun _ => 0) 0 0).1[k]? =
      some (gradCell 0 0 2 (fun _ => (0:ℝ)) (fun _ => 0) (k % 2) (k / 2))) ∧
    (∃ k, k < 2 * 2 ∧ (k % 2) * 2 + k / 2 ≠ k) :=
  C10_layout_mismatch 2 2 (fun _ => (0:ℝ)) (fun _ => 0) 0 0 (by omega) (by omega)

end

end FocalLoss
